import Mathlib

/-!
Shallow embedding of the core library functions of the mistral-ocr repository:

* `parsePageSelection` (src/lib/file.ts): free-text page-range expression to a
  sorted, de-duplicated list of positive page numbers, or absence;
* `prepareDisplayPages` / `normalizePageNumber` / `sanitizeBlocks`
  (src/lib/ocr.ts): normalization of the engine-supplied OCR pages into the
  display model;
* `isLoopbackHost` / `createApiUrlResolver` (src/lib/api.ts): the
  loopback-guarding API URL resolver;
* the serverless request handler's validation prefix (api/ocr.ts).

JavaScript strings are modelled as `List Char` / `String`; JavaScript numbers
appearing in the untrusted OCR payload are modelled exactly as rationals
tagged with the non-finite cases (`JsNum`); `undefined`/`null` and
absent-or-wrongly-typed fields are modelled with `Option`.
-/

namespace MistralOcr

/-- ASCII whitespace recognized by the model of `String.prototype.trim` and
`Number.parseInt` (space, tab, line feed, carriage return, vertical tab,
form feed). -/
def isWsChar (c : Char) : Bool :=
  c = ' ' || c = '\t' || c = '\n' || c = '\r' || c = Char.ofNat 11 || c = Char.ofNat 12

/-- Drop leading whitespace. -/
def lstrip (cs : List Char) : List Char := cs.dropWhile isWsChar

/-- Drop trailing whitespace. -/
def rstrip : List Char → List Char
  | [] => []
  | c :: cs =>
    let r := rstrip cs
    if r = [] ∧ isWsChar c then [] else c :: r

/-- Model of `String.prototype.trim` on character lists. -/
def jsTrim (cs : List Char) : List Char := rstrip (lstrip cs)

/-- Model of `String.prototype.trim`. -/
def jsStrTrim (s : String) : String := ⟨jsTrim s.data⟩

/-- Model of `value.split(',')`: splitting on commas, keeping empty pieces. -/
def splitComma : List Char → List (List Char)
  | [] => [[]]
  | c :: rest =>
    if c = ',' then [] :: splitComma rest
    else
      match splitComma rest with
      | seg :: segs => (c :: seg) :: segs
      | [] => [[c]]

/-- Model of `segments.join(',')`, the inverse direction of `splitComma`. -/
def joinComma : List (List Char) → List Char
  | [] => []
  | [s] => s
  | s :: rest => s ++ ',' :: joinComma rest

/-- Apply a function to the last element of a list (identity on `[]`),
used to relate splitting a right-trimmed string to splitting the string. -/
def mapLast (f : List Char → List Char) : List (List Char) → List (List Char)
  | [] => []
  | [s] => [f s]
  | s :: rest => s :: mapLast f rest

/-- Decimal digit test, the model of the regex class `\d`. -/
def isDigitChar (c : Char) : Bool := '0' ≤ c && c ≤ '9'

/-- Value of a decimal digit string. -/
def digitsToNat (ds : List Char) : Nat :=
  ds.foldl (fun a c => a * 10 + (c.toNat - '0'.toNat)) 0

/-- Model of `Number.parseInt(s, 10)`: skip leading whitespace, optional
sign, then the maximal run of leading decimal digits; `none` models `NaN`
(no digits). Digit strings are read exactly (the model idealizes the
double-precision rounding of very large literals). -/
def parseIntJS (cs : List Char) : Option Int :=
  match lstrip cs with
  | '-' :: r =>
    let ds := r.takeWhile isDigitChar
    if ds = [] then none else some (-(digitsToNat ds : Int))
  | '+' :: r =>
    let ds := r.takeWhile isDigitChar
    if ds = [] then none else some ((digitsToNat ds : Int))
  | r =>
    let ds := r.takeWhile isDigitChar
    if ds = [] then none else some ((digitsToNat ds : Int))

/-- Pages contributed by one (already trimmed) comma-segment of the page
selection, following the loop body of `parsePageSelection` in
src/lib/file.ts: an empty segment contributes nothing; a segment matching
`^(\d+)-(\d+)$` is a range, discarded whole when `start === 0 || start > end`
and expanded to `[start..end]` otherwise; any other segment contributes its
`Number.parseInt` value exactly when that value is finite and positive. -/
def segPages (seg : List Char) : List Int :=
  if seg = [] then []
  else
    if seg.takeWhile isDigitChar ≠ [] ∧
        (seg.drop (seg.takeWhile isDigitChar).length).head? = some '-' ∧
        (seg.drop (seg.takeWhile isDigitChar).length).tail ≠ [] ∧
        (seg.drop (seg.takeWhile isDigitChar).length).tail.all isDigitChar then
      if digitsToNat (seg.takeWhile isDigitChar) = 0 ∨
          digitsToNat ((seg.drop (seg.takeWhile isDigitChar).length).tail) <
            digitsToNat (seg.takeWhile isDigitChar) then []
      else
        (List.range (digitsToNat ((seg.drop (seg.takeWhile isDigitChar).length).tail) + 1 -
            digitsToNat (seg.takeWhile isDigitChar))).map
          (fun k => ((digitsToNat (seg.takeWhile isDigitChar) + k : Nat) : Int))
    else
      match parseIntJS seg with
      | some n => if 0 < n then [n] else []
      | none => []

/-- Model of `Set.prototype.add`: insertion order is kept, duplicates are
dropped. -/
def addPage (acc : List Int) (p : Int) : List Int :=
  if p ∈ acc then acc else acc ++ [p]

/-- Adding every page of a segment to the accumulated set, in order. -/
def addPages (acc : List Int) (ps : List Int) : List Int :=
  ps.foldl addPage acc

/-- The page set accumulated over all (trimmed) segments. -/
def collectPages (segs : List (List Char)) : List Int :=
  segs.foldl (fun acc seg => addPages acc (segPages seg)) []

/-- Embedding of `parsePageSelection` (src/lib/file.ts, the current variant
that rejects ranges starting at 0, adopted by spec §4.1/§9 and enforced by
src/lib/file.test.ts): trim; empty input means no restriction; split on
commas, trim each segment, accumulate the valid pages into a set; an empty
set means no restriction, otherwise the set is returned numerically sorted. -/
def parsePageSelection (value : String) : Option (List Int) :=
  let trimmed := jsTrim value.data
  if trimmed = [] then none
  else
    let segments := (splitComma trimmed).map jsTrim
    let pages := collectPages segments
    if pages = [] then none
    else some (List.insertionSort (· ≤ ·) pages)

example : parsePageSelection "" = none := by decide
example : parsePageSelection "   " = none := by decide
example : parsePageSelection "3" = some [3] := by decide
example : parsePageSelection "1, 3-5, 8" = some [1, 3, 4, 5, 8] := by decide
example : parsePageSelection "5, 1, 3-4, 1, 4" = some [1, 3, 4, 5] := by decide
example : parsePageSelection "0" = none := by decide
example : parsePageSelection "1, 0, 2" = some [1, 2] := by decide
example : parsePageSelection "0-2" = none := by decide
example : parsePageSelection "0-2, 3" = some [3] := by decide
example : parsePageSelection "5-2, 8" = some [8] := by decide
example : parsePageSelection "abc, def-ghi" = none := by decide
example : parsePageSelection "5, foo, 2-3, bar-10" = some [2, 3, 5] := by decide
example : parsePageSelection "foo, 0, 0-0" = none := by decide

/-- A JavaScript number as it can appear in the untrusted OCR payload:
either one of the non-finite values or an exact finite value (modelled as a
rational, idealizing double precision). -/
inductive JsNum where
  | nan : JsNum
  | posInf : JsNum
  | negInf : JsNum
  | val : ℚ → JsNum
deriving DecidableEq

/-- Model of `typeof x === 'number' && Number.isFinite(x)` for an optional
field: `none` models an absent or non-number field. -/
def isFiniteNum : Option JsNum → Bool
  | some (JsNum.val _) => true
  | _ => false

/-- Embedding of the `OcrBlock` interface (src/types/mistral.ts). Every
field is optional. The nested `children` and `rows` fields are omitted:
`prepareDisplayPages` treats blocks as opaque values (only `Boolean(block)`
is consulted), so nesting never influences the functions embedded here. -/
structure OcrBlock where
  id : Option String := none
  type : Option String := none
  text : Option String := none
  label : Option String := none
  value : Option String := none
  confidence : Option JsNum := none
  boundingBox : Option (Option JsNum × Option JsNum × Option JsNum × Option JsNum) := none
deriving DecidableEq

/-- Embedding of the `OcrPage` interface (src/types/mistral.ts), the
engine-supplied untrusted shape. `none` on `textBlocks`, `tables` or
`keyValues` models a missing or non-array field; `none` entries inside
model `null`/`undefined` array elements. -/
structure OcrPage where
  pageNumber : Option JsNum := none
  index : Option JsNum := none
  width : Option JsNum := none
  height : Option JsNum := none
  markdown : Option String := none
  textBlocks : Option (List (Option OcrBlock)) := none
  tables : Option (List (Option OcrBlock)) := none
  keyValues : Option (List (Option OcrBlock)) := none
deriving DecidableEq

/-- Embedding of the `DisplayPage` interface (src/lib/ocr.ts). -/
structure DisplayPage where
  pageNumber : ℚ
  blocks : List OcrBlock
  markdown : String
deriving DecidableEq

/-- Embedding of `normalizePageNumber` (src/lib/ocr.ts): the engine
`pageNumber` when it is a finite number, else the engine `index` plus 1 when
it is a finite number, else the 0-based array position plus 1. -/
def normalizePageNumber (page : OcrPage) (index : Nat) : ℚ :=
  match page.pageNumber with
  | some (JsNum.val q) => q
  | _ =>
    match page.index with
    | some (JsNum.val q) => q + 1
    | _ => (index : ℚ) + 1

/-- Embedding of `sanitizeBlocks` (src/lib/ocr.ts): a non-array yields `[]`,
otherwise the `null`/`undefined` entries are dropped, keeping the order. -/
def sanitizeBlocks (blocks : Option (List (Option OcrBlock))) : List OcrBlock :=
  match blocks with
  | none => []
  | some bs => bs.filterMap id

/-- The markdown resolved for one page by `prepareDisplayPages`
(src/lib/ocr.ts): the trimmed engine markdown when it is a string, the
empty string otherwise. -/
def resolvedMarkdown (page : OcrPage) : String :=
  match page.markdown with
  | some s => jsStrTrim s
  | none => ""

/-- The display page built from one engine page at 0-based array position
`index`, the body of the `pages.map((page, index) => ...)` callback in
`prepareDisplayPages` (src/lib/ocr.ts). -/
def makeDisplayPage (page : OcrPage) (index : Nat) : DisplayPage :=
  { pageNumber := normalizePageNumber page index
    blocks := sanitizeBlocks page.textBlocks
    markdown := resolvedMarkdown page }

/-- Indexed map used to embed `pages.map((page, index) => ...)`. -/
def prepareAux (index : Nat) : List OcrPage → List DisplayPage
  | [] => []
  | page :: rest => makeDisplayPage page index :: prepareAux (index + 1) rest

/-- Embedding of `prepareDisplayPages` (src/lib/ocr.ts) on arrays of page
records: a non-array input (modelled as `none`) yields `[]`; otherwise each
page is normalized in order. This is the restriction of
`prepareDisplayPagesJs` below to arrays without `null`/`undefined` entries,
the domain on which the source function returns normally. -/
def prepareDisplayPages (pages : Option (List OcrPage)) : List DisplayPage :=
  match pages with
  | none => []
  | some ps => prepareAux 0 ps

/-- Indexed map over the raw entries of the engine's `pages` array, where an
entry may be `null`/`undefined` (modelled as `none`). The source's map
callback immediately reads `page.textBlocks` on the entry, so a null entry
makes the call throw a `TypeError`, modelled as `none` for the whole
result. -/
def prepareAuxJs (index : Nat) : List (Option OcrPage) → Option (List DisplayPage)
  | [] => some []
  | none :: _ => none
  | some page :: rest =>
    (prepareAuxJs (index + 1) rest).map fun tl => makeDisplayPage page index :: tl

/-- Embedding of `prepareDisplayPages` (src/lib/ocr.ts) on the raw engine
value: `none` models a non-array input (returns `[]`); array entries may be
`null`/`undefined` (inner `none`), on which the map callback throws a
`TypeError` reading `page.textBlocks` — modelled as a `none` result. On
arrays of genuine page records it returns normally and agrees with
`prepareDisplayPages` (`prepareAuxJs_map_some`). -/
def prepareDisplayPagesJs (pages : Option (List (Option OcrPage))) : Option (List DisplayPage) :=
  match pages with
  | none => some []
  | some ps => prepareAuxJs 0 ps

/-- ASCII case folding, the model of the regex `i` flag (the pattern
letters are all ASCII). -/
def foldCase (c : Char) : Char :=
  if 'A' ≤ c && c ≤ 'Z' then Char.ofNat (c.toNat + 32) else c

/-- After a matched alternative the regex `(?:$|:)` requires the end of the
string or a colon. -/
def isTermAfter : List Char → Bool
  | [] => true
  | ':' :: _ => true
  | _ => false

/-- Matcher for the first alternative `((?:[^.]+\.)*localhost)` of
`LOOPBACK_HOST_PATTERN` (src/lib/api.ts), anchored at the start and followed
by `(?:$|:)`: either the literal `localhost` with a valid terminator here, or
one non-empty dot-free label, a dot, and the same alternative again. The
fuel argument (always called with more fuel than characters) makes the
recursion structural. -/
def matchLhAux : Nat → List Char → Bool
  | 0, _ => false
  | fuel + 1, cs =>
    (cs.take 9 = "localhost".data && isTermAfter (cs.drop 9)) ||
    (let label := cs.takeWhile (fun c => c ≠ '.')
     label ≠ [] &&
       match cs.drop label.length with
       | '.' :: rest => matchLhAux fuel rest
       | _ => false)

/-- The `*.localhost` alternative of the loopback pattern. -/
def matchAltLocalhost (cs : List Char) : Bool :=
  matchLhAux (cs.length + 1) cs

/-- Remainders left after matching `\.\d{1,3}` at the front, one entry per
admissible digit count (the regex backtracks over 1, 2 or 3 digits). -/
def dotOctetRemainders (cs : List Char) : List (List Char) :=
  match cs with
  | '.' :: rest =>
    ([1, 2, 3].filterMap fun k =>
      if (rest.take k).length = k && (rest.take k).all isDigitChar
      then some (rest.drop k) else none)
  | _ => []

/-- Matcher for the second alternative `(?:127(?:\.\d{1,3}){3})` of the
loopback pattern followed by `(?:$|:)`. -/
def matchAlt127 (cs : List Char) : Bool :=
  cs.take 3 = "127".data &&
    (((((dotOctetRemainders (cs.drop 3)).map dotOctetRemainders).flatten).map
        dotOctetRemainders).flatten).any isTermAfter

/-- Matcher for the third alternative `\[?::1\]?` of the loopback pattern
followed by `(?:$|:)`: an optional opening bracket, the literal `::1`, an
optional closing bracket, then the terminator. -/
def matchAltIpv6 (cs : List Char) : Bool :=
  let cs1 := if cs.head? = some '[' then cs.tail else cs
  let rest := cs1.drop 3
  cs1.take 3 = "::1".data &&
    (if rest.head? = some ']' then isTermAfter rest.tail else isTermAfter rest)

/-- Embedding of `isLoopbackHost` (src/lib/api.ts):
`LOOPBACK_HOST_PATTERN.test(hostname)` with the case-insensitive pattern
`/^((?:[^.]+\.)*localhost|(?:127(?:\.\d{1,3}){3})|\[?::1\]?)(?:$|:)/i`. -/
def isLoopbackHost (hostname : String) : Bool :=
  let cs := hostname.data.map foldCase
  matchAltLocalhost cs || matchAlt127 cs || matchAltIpv6 cs

example : isLoopbackHost "localhost" = true := by decide
example : isLoopbackHost "foo.localhost" = true := by decide
example : isLoopbackHost "127.0.0.1" = true := by decide
example : isLoopbackHost "127.0.0.1:5173" = true := by decide
example : isLoopbackHost "[::1]" = true := by decide
example : isLoopbackHost "::1" = true := by decide
example : isLoopbackHost "127.not-a-loopback.com" = false := by decide
example : isLoopbackHost "mistral-ocr.vercel.app" = false := by decide
example : isLoopbackHost "127.localhost" = true := by decide
example : isLoopbackHost "LOCALHOST" = true := by decide
example : isLoopbackHost "127.0.0.1234" = false := by decide

/-- The parsed URL model: the components of a WHATWG URL that the resolver
reads (`hostname`, via the loopback check) and prints (`toString`). -/
structure JsURL where
  scheme : String
  hostname : String
  port : String
  pathname : String
deriving DecidableEq

/-- Model of `URL.prototype.toString` for the modelled fragment. -/
def urlToString (u : JsURL) : String :=
  u.scheme ++ "://" ++ u.hostname ++ (if u.port = "" then "" else ":" ++ u.port) ++ u.pathname

/-- Modelled from the platform `new URL(absolute)` constructor on the
fragment this repository exercises: absolute `http`/`https` URLs with a
non-empty host, an optional decimal port, and a path; the hostname is
lowercased, a default port is dropped, and a missing path becomes `/`.
Inputs outside this fragment yield `none`, which the resolver treats as the
constructor throwing. -/
def parseAbsoluteURL (s : String) : Option JsURL :=
  let cs := s.data
  let schemeLen : Option (String × Nat) :=
    if cs.take 7 = "http://".data then some ("http", 7)
    else if cs.take 8 = "https://".data then some ("https", 8)
    else none
  match schemeLen with
  | none => none
  | some (scheme, n) =>
    let rest := cs.drop n
    let authority := rest.takeWhile (fun c => c ≠ '/')
    let path := rest.drop authority.length
    let host := authority.takeWhile (fun c => c ≠ ':')
    let port := authority.drop (host.length + 1)
    if host = [] then none
    else if authority.length ≤ host.length then
      some ⟨scheme, ⟨host.map foldCase⟩, "", ⟨if path = [] then ['/'] else path⟩⟩
    else if port ≠ [] && port.all isDigitChar then
      let portStr : String :=
        if (scheme = "http" ∧ digitsToNat port = 80) ∨
           (scheme = "https" ∧ digitsToNat port = 443) then "" else ⟨port⟩
      some ⟨scheme, ⟨host.map foldCase⟩, portStr, ⟨if path = [] then ['/'] else path⟩⟩
    else none

/-- Modelled from the platform `new URL(path, base)` constructor on the
fragment this repository exercises: an absolute `path` wins; otherwise a
root-relative `path` (starting with `/`) replaces the path of the absolute
base. Anything outside the fragment is `none`, treated by the resolver as
the constructor throwing. -/
def tryNewURL (path base : String) : Option JsURL :=
  match parseAbsoluteURL path with
  | some u => some u
  | none =>
    match parseAbsoluteURL base with
    | some b =>
      match path.data with
      | '/' :: _ => some { b with pathname := path }
      | _ => none
    | none => none

/-- Embedding of the resolver returned by `createApiUrlResolver`
(src/lib/api.ts). `configuredBaseUrl = none` models an undefined base;
`windowHostname = none` models a non-browser context (`typeof window ===
'undefined'` or no `window.location`); the `try`/`catch` around `new URL`
is modelled by `tryNewURL` returning `none`. -/
def createApiUrlResolver (configuredBaseUrl : Option String)
    (windowHostname : Option String) (path : String) : String :=
  match configuredBaseUrl.map jsStrTrim with
  | none => path
  | some trimmedBase =>
    if trimmedBase = "" then path
    else
      match tryNewURL path trimmedBase with
      | none => path
      | some url =>
        match windowHostname with
        | some currentHost =>
          if !isLoopbackHost currentHost && isLoopbackHost url.hostname then path
          else urlToString url
        | none => urlToString url

example : createApiUrlResolver none (some "mistral-ocr.vercel.app") "/api/ocr" = "/api/ocr" := by
  decide
example :
    createApiUrlResolver (some "http://localhost:3000") (some "mistral-ocr.vercel.app")
      "/api/ocr" = "/api/ocr" := by decide
example :
    createApiUrlResolver (some "https://api.example.com") (some "mistral-ocr.vercel.app")
      "/api/ocr" = "https://api.example.com/api/ocr" := by decide
example :
    createApiUrlResolver (some "http://127.not-a-loopback.com") (some "mistral-ocr.vercel.app")
      "/api/ocr" = "http://127.not-a-loopback.com/api/ocr" := by decide

/-- The standard base64 alphabet. -/
def isBase64Char (c : Char) : Bool :=
  ('A' ≤ c && c ≤ 'Z') || ('a' ≤ c && c ≤ 'z') || isDigitChar c || c = '+' || c = '/'

/-- Modelled from the platform `Buffer.from(s, 'base64').length`: a
forgiving decode that ignores characters outside the base64 alphabet
(padding included) and yields three bytes per four alphabet characters,
with the final partial group contributing its decoded remainder. -/
def base64DecodedLen (s : String) : Nat :=
  ((s.data.filter isBase64Char).length * 3) / 4

example : base64DecodedLen "dGVzdA==" = 4 := by decide
example : base64DecodedLen "AAAA" = 3 := by decide
example : base64DecodedLen "" = 0 := by decide

/-- Environment of the serverless handler: the optional
`MAX_UPLOAD_BYTES` override (already converted to a number) and the
optional `MISTRAL_API_KEY`. -/
structure HandlerEnv where
  maxUploadBytes : Option Nat := none
  apiKey : Option String := none

/-- Embedding of `getMaxUploadBytes` (api/ocr.ts): the environment override
when set, else the binary 4.5 MiB default `Math.round(4.5 * 1024 * 1024)`. -/
def getMaxUploadBytes (env : HandlerEnv) : Nat :=
  match env.maxUploadBytes with
  | some n => n
  | none => 4718592

example : getMaxUploadBytes {} = 4718592 := by decide

/-- The raw JSON request body of the OCR endpoint before validation.
`none` on a field models an absent or wrongly-typed value. -/
structure RawOcrBody where
  fileBase64 : Option String := none
  fileName : Option String := none
  includeImageBase64 : Option Bool := none
  pages : Option (List Int) := none
  query : Option String := none

/-- Embedding of `normalizeText` (api/ocr.ts): non-strings and strings that
trim to empty become `undefined`, otherwise the trimmed string. -/
def normalizeText (value : Option String) : Option String :=
  match value with
  | none => none
  | some s =>
    let trimmed := jsStrTrim s
    if trimmed = "" then none else some trimmed

/-- The request after `OcrRequestSchema` validation. -/
structure ParsedOcrRequest where
  fileBase64 : String
  fileName : String
  includeImageBase64 : Bool
  pages : Option (List Int)
  query : Option String
deriving DecidableEq

/-- Embedding of `OcrRequestSchema.safeParse` (api/ocr.ts): `fileBase64`
must be a non-empty string; `fileName` is trimmed and defaults to
`document.pdf`; `includeImageBase64` defaults to `false`; `pages`, when
present, must be positive integers; `query` goes through `normalizeText`. -/
def ocrRequestSchemaParse (body : RawOcrBody) : Option ParsedOcrRequest :=
  match body.fileBase64 with
  | none => none
  | some f =>
    if f.length = 0 then none
    else if (body.pages.getD []).all (fun p => 0 < p) then
      some
        { fileBase64 := f
          fileName := (body.fileName.map jsStrTrim).getD "document.pdf"
          includeImageBase64 := body.includeImageBase64.getD false
          pages := body.pages
          query := normalizeText body.query }
    else none

/-- Outcome of the handler's synchronous validation prefix (api/ocr.ts): an
HTTP response sent without contacting the OCR collaborator, or the first
outbound call — the file upload — with the forwarded data. -/
inductive HandlerOutcome where
  | response : Nat → String → HandlerOutcome
  | upload : String → Nat → Option (List Int) → HandlerOutcome
deriving DecidableEq

/-- Embedding of the default handler of api/ocr.ts up to its first outbound
call (the zod-validating variant with the size guard): non-POST methods get
405; a body failing `OcrRequestSchema` gets 400; a missing API key makes
`getClient` throw, caught as 500; a decoded file larger than
`getMaxUploadBytes` gets 413 `PAYLOAD_TOO_LARGE`; only then is the file
uploaded to the collaborator. -/
def handlerDecision (env : HandlerEnv) (method : String) (body : Option RawOcrBody) :
    HandlerOutcome :=
  if method ≠ "POST" then .response 405 "METHOD_NOT_ALLOWED"
  else
    match body with
    | none => .response 400 "INVALID_REQUEST"
    | some b =>
      match ocrRequestSchemaParse b with
      | none => .response 400 "INVALID_REQUEST"
      | some parsed =>
        match env.apiKey with
        | none => .response 500 "INTERNAL_SERVER_ERROR"
        | some _ =>
          let bufLen := base64DecodedLen parsed.fileBase64
          if getMaxUploadBytes env < bufLen then .response 413 "PAYLOAD_TOO_LARGE"
          else .upload parsed.fileName bufLen parsed.pages

example :
    handlerDecision { apiKey := some "k" } "POST" (some { fileBase64 := some "dGVzdA==" }) =
      .upload "document.pdf" 4 none := by decide
example :
    handlerDecision { apiKey := some "k", maxUploadBytes := some 3 } "POST"
      (some { fileBase64 := some "dGVzdA==" }) = .response 413 "PAYLOAD_TOO_LARGE" := by decide
example :
    handlerDecision { apiKey := some "k" } "GET" (some { fileBase64 := some "dGVzdA==" }) =
      .response 405 "METHOD_NOT_ALLOWED" := by decide

/-- The spec §8 example page with a title block and no engine markdown:
`{pageNumber: 5, textBlocks: [null, {type:"title", text:"Hi"}]}`. -/
def pageTitleHi : OcrPage :=
  { pageNumber := some (JsNum.val 5)
    textBlocks := some [none, some { type := some "title", text := some "Hi" }] }

/-- The spec §8 example page with only engine markdown:
`{index: 0, markdown: "Summary paragraph."}`. -/
def pageSummary : OcrPage :=
  { index := some (JsNum.val 0), markdown := some "Summary paragraph." }

/-- An engine page carrying the finite number 0 as its `pageNumber`. -/
def pageZero : OcrPage := { pageNumber := some (JsNum.val 0) }

/-- A handler environment with a 3-byte upload cap. -/
def envSmallCap : HandlerEnv := { maxUploadBytes := some 3, apiKey := some "k" }

/-- A request body whose base64 payload decodes to 4 bytes. -/
def bodySmallFile : RawOcrBody := { fileBase64 := some "dGVzdA==" }

/-- The validated form of `bodySmallFile`. -/
def parsedSmallFile : ParsedOcrRequest :=
  { fileBase64 := "dGVzdA==", fileName := "document.pdf", includeImageBase64 := false
    pages := none, query := none }

/-- Per-page integrality hypothesis on the untrusted numeric fields: an
engine-supplied finite `pageNumber` is an integer at least 1 and an
engine-supplied finite `index` is an integer at least 0. -/
def PageNumericFieldsOk (p : OcrPage) : Prop :=
  (∀ q : ℚ, p.pageNumber = some (JsNum.val q) → 1 ≤ q ∧ q.den = 1) ∧
    (∀ q : ℚ, p.index = some (JsNum.val q) → 0 ≤ q ∧ q.den = 1)

section NormalizerLemmas

lemma prepareAux_getElem? (ps : List OcrPage) :
    ∀ (i k : Nat), (prepareAux i ps)[k]? = (ps[k]?).map (fun p => makeDisplayPage p (i + k)) := by
  induction ps with
  | nil => intro i k; simp [prepareAux]
  | cons p rest ih =>
    intro i k
    cases k with
    | zero => simp [prepareAux]
    | succ k =>
      have hik : i + 1 + k = i + (k + 1) := by omega
      simp [prepareAux, ih (i + 1) k, hik]

lemma mem_prepareAux (dp : DisplayPage) (ps : List OcrPage) (i : Nat)
    (h : dp ∈ prepareAux i ps) :
    ∃ (k : Nat) (p : OcrPage), ps[k]? = some p ∧ dp = makeDisplayPage p (i + k) := by
  rcases List.getElem?_of_mem h with ⟨k, hk⟩
  have hk' := hk
  rw [List.getElem?_eq_some] at hk'
  rcases hk' with ⟨hlt, _⟩
  have := prepareAux_getElem? ps i k
  rw [hk] at this
  cases hp : ps[k]? with
  | none => rw [hp] at this; simp at this
  | some p =>
    rw [hp] at this
    simp at this
    exact ⟨k, p, hp, this⟩

lemma den_one_add_one {q : ℚ} (h : q.den = 1) : (q + 1).den = 1 := by
  rw [Rat.den_eq_one_iff] at h
  rw [← h]
  have hc : (q.num : ℚ) + 1 = ((q.num + 1 : ℤ) : ℚ) := by push_cast; ring
  rw [hc, Rat.den_intCast]

lemma natCast_add_one_den (i : Nat) : ((i : ℚ) + 1).den = 1 := by
  have hc : ((i : ℚ)) + 1 = ((i + 1 : ℤ) : ℚ) := by push_cast; ring
  rw [hc, Rat.den_intCast]

lemma indexFallback_ok (p : OcrPage) (i : Nat)
    (h2 : ∀ q : ℚ, p.index = some (JsNum.val q) → 0 ≤ q ∧ q.den = 1) :
    1 ≤ (match p.index with
         | some (JsNum.val q) => q + 1
         | _ => (i : ℚ) + 1) ∧
      (match p.index with
       | some (JsNum.val q) => q + 1
       | _ => (i : ℚ) + 1).den = 1 := by
  have hi : (0 : ℚ) ≤ (i : ℚ) := Nat.cast_nonneg i
  cases hidx : p.index with
  | some jn =>
    cases jn with
    | val q =>
      rcases h2 q hidx with ⟨h0, hd⟩
      exact ⟨show (1 : ℚ) ≤ q + 1 by linarith, show (q + 1).den = 1 from den_one_add_one hd⟩
    | nan =>
      exact ⟨show (1 : ℚ) ≤ (i : ℚ) + 1 by linarith,
        show ((i : ℚ) + 1).den = 1 from natCast_add_one_den i⟩
    | posInf =>
      exact ⟨show (1 : ℚ) ≤ (i : ℚ) + 1 by linarith,
        show ((i : ℚ) + 1).den = 1 from natCast_add_one_den i⟩
    | negInf =>
      exact ⟨show (1 : ℚ) ≤ (i : ℚ) + 1 by linarith,
        show ((i : ℚ) + 1).den = 1 from natCast_add_one_den i⟩
  | none =>
    exact ⟨show (1 : ℚ) ≤ (i : ℚ) + 1 by linarith,
      show ((i : ℚ) + 1).den = 1 from natCast_add_one_den i⟩

lemma normalizePageNumber_int_ge_one (p : OcrPage) (i : Nat) (h : PageNumericFieldsOk p) :
    1 ≤ normalizePageNumber p i ∧ (normalizePageNumber p i).den = 1 := by
  have hinner := indexFallback_ok p i h.2
  unfold normalizePageNumber
  cases hpn : p.pageNumber with
  | some jn =>
    cases jn with
    | val q => exact h.1 q hpn
    | nan => exact hinner
    | posInf => exact hinner
    | negInf => exact hinner
  | none => exact hinner

lemma normalizePageNumber_pn (page : OcrPage) (i : Nat) (q : ℚ)
    (h : page.pageNumber = some (JsNum.val q)) : normalizePageNumber page i = q := by
  unfold normalizePageNumber
  rw [h]

lemma normalizePageNumber_idx (page : OcrPage) (i : Nat) (q : ℚ)
    (h1 : isFiniteNum page.pageNumber = false)
    (h2 : page.index = some (JsNum.val q)) : normalizePageNumber page i = q + 1 := by
  unfold normalizePageNumber
  cases hpn : page.pageNumber with
  | some jn =>
    cases jn with
    | val r => rw [hpn] at h1; simp [isFiniteNum] at h1
    | nan => rw [h2]
    | posInf => rw [h2]
    | negInf => rw [h2]
  | none => rw [h2]

lemma prepareAuxJs_map_some (ps : List OcrPage) :
    ∀ i : Nat, prepareAuxJs i (ps.map some) = some (prepareAux i ps) := by
  induction ps with
  | nil => intro i; rfl
  | cons p rest ih =>
    intro i
    show (prepareAuxJs (i + 1) (rest.map some)).map _ = _
    rw [ih (i + 1)]
    rfl

lemma prepare_pageSummary_eval :
    prepareDisplayPages (some [pageSummary]) = [⟨1, [], "Summary paragraph."⟩] := by
  have h1 : normalizePageNumber pageSummary 0 = 1 := by
    show (0 : ℚ) + 1 = 1
    norm_num
  have h3 : makeDisplayPage pageSummary 0 = ⟨1, [], "Summary paragraph."⟩ :=
    congrArg (fun q => DisplayPage.mk q [] "Summary paragraph.") h1
  show [makeDisplayPage pageSummary 0] = [⟨1, [], "Summary paragraph."⟩]
  rw [h3]

lemma normalizePageNumber_pos (page : OcrPage) (i : Nat)
    (h1 : isFiniteNum page.pageNumber = false)
    (h2 : isFiniteNum page.index = false) : normalizePageNumber page i = (i : ℚ) + 1 := by
  unfold normalizePageNumber
  cases hpn : page.pageNumber with
  | some jn =>
    cases jn with
    | val r => rw [hpn] at h1; simp [isFiniteNum] at h1
    | nan =>
      cases hidx : page.index with
      | some jn2 =>
        cases jn2 with
        | val r => rw [hidx] at h2; simp [isFiniteNum] at h2
        | nan => rfl
        | posInf => rfl
        | negInf => rfl
      | none => rfl
    | posInf =>
      cases hidx : page.index with
      | some jn2 =>
        cases jn2 with
        | val r => rw [hidx] at h2; simp [isFiniteNum] at h2
        | nan => rfl
        | posInf => rfl
        | negInf => rfl
      | none => rfl
    | negInf =>
      cases hidx : page.index with
      | some jn2 =>
        cases jn2 with
        | val r => rw [hidx] at h2; simp [isFiniteNum] at h2
        | nan => rfl
        | posInf => rfl
        | negInf => rfl
      | none => rfl
  | none =>
    cases hidx : page.index with
    | some jn2 =>
      cases jn2 with
      | val r => rw [hidx] at h2; simp [isFiniteNum] at h2
      | nan => rfl
      | posInf => rfl
      | negInf => rfl
    | none => rfl

end NormalizerLemmas

section ParserLemmas

lemma takeWhile_digits_append (ds1 ds2 : List Char) (h : ds1.all isDigitChar = true) :
    (ds1 ++ '-' :: ds2).takeWhile isDigitChar = ds1 := by
  induction ds1 with
  | nil =>
    simp [List.takeWhile_cons]
    decide
  | cons c t ih =>
    simp only [List.all_cons, Bool.and_eq_true] at h
    simp [List.takeWhile_cons, h.1, ih h.2]

lemma mem_addPage (x p : Int) (acc : List Int) :
    x ∈ addPage acc p ↔ x ∈ acc ∨ x = p := by
  unfold addPage
  by_cases hp : p ∈ acc
  · simp only [if_pos hp]
    constructor
    · exact Or.inl
    · rintro (hx | rfl)
      · exact hx
      · exact hp
  · simp [if_neg hp]

lemma nodup_addPage (p : Int) (acc : List Int) (h : acc.Nodup) : (addPage acc p).Nodup := by
  unfold addPage
  by_cases hp : p ∈ acc
  · simpa [if_pos hp] using h
  · simp [if_neg hp, List.nodup_append, h, hp]

lemma mem_addPages (x : Int) (ps : List Int) :
    ∀ acc : List Int, x ∈ addPages acc ps ↔ x ∈ acc ∨ x ∈ ps := by
  induction ps with
  | nil => intro acc; simp [addPages]
  | cons p rest ih =>
    intro acc
    show x ∈ addPages (addPage acc p) rest ↔ _
    rw [ih (addPage acc p), mem_addPage]
    simp [or_assoc]

lemma nodup_addPages (ps : List Int) :
    ∀ acc : List Int, acc.Nodup → (addPages acc ps).Nodup := by
  induction ps with
  | nil => intro acc h; exact h
  | cons p rest ih =>
    intro acc h
    exact ih (addPage acc p) (nodup_addPage p acc h)

lemma mem_collect_aux (x : Int) (segs : List (List Char)) :
    ∀ acc : List Int,
      (x ∈ segs.foldl (fun a s => addPages a (segPages s)) acc ↔
        x ∈ acc ∨ ∃ s ∈ segs, x ∈ segPages s) := by
  induction segs with
  | nil => intro acc; simp
  | cons s rest ih =>
    intro acc
    show x ∈ rest.foldl _ (addPages acc (segPages s)) ↔ _
    rw [ih (addPages acc (segPages s)), mem_addPages]
    simp only [List.mem_cons]
    constructor
    · rintro ((hx | hx) | ⟨t, ht, hxt⟩)
      · exact Or.inl hx
      · exact Or.inr ⟨s, Or.inl rfl, hx⟩
      · exact Or.inr ⟨t, Or.inr ht, hxt⟩
    · rintro (hx | ⟨t, (rfl | ht), hxt⟩)
      · exact Or.inl (Or.inl hx)
      · exact Or.inl (Or.inr hxt)
      · exact Or.inr ⟨t, ht, hxt⟩

lemma mem_collectPages (x : Int) (segs : List (List Char)) :
    x ∈ collectPages segs ↔ ∃ s ∈ segs, x ∈ segPages s := by
  unfold collectPages
  rw [mem_collect_aux x segs []]
  simp

lemma nodup_collect_aux (segs : List (List Char)) :
    ∀ acc : List Int, acc.Nodup →
      (segs.foldl (fun a s => addPages a (segPages s)) acc).Nodup := by
  induction segs with
  | nil => intro acc h; exact h
  | cons s rest ih =>
    intro acc h
    exact ih (addPages acc (segPages s)) (nodup_addPages (segPages s) acc h)

lemma nodup_collectPages (segs : List (List Char)) : (collectPages segs).Nodup :=
  nodup_collect_aux segs [] List.nodup_nil

lemma collectPages_eq_nil (segs : List (List Char)) (h : ∀ seg ∈ segs, segPages seg = []) :
    collectPages segs = [] := by
  unfold collectPages
  induction segs with
  | nil => rfl
  | cons s rest ih =>
    show rest.foldl _ (addPages [] (segPages s)) = []
    rw [h s (List.mem_cons_self s rest)]
    exact ih fun seg hseg => h seg (List.mem_cons_of_mem s hseg)

lemma segPages_pos (seg : List Char) (x : Int) (hx : x ∈ segPages seg) : 0 < x := by
  unfold segPages at hx
  split at hx
  · simp at hx
  · split at hx
    · split at hx
      · simp at hx
      · rename_i hz
        push_neg at hz
        rcases List.mem_map.mp hx with ⟨k, _, hk⟩
        rw [← hk]
        have h0 : 0 < digitsToNat (seg.takeWhile isDigitChar) := Nat.pos_of_ne_zero hz.1
        exact_mod_cast Nat.add_pos_left h0 k
    · split at hx
      · rename_i n _
        split at hx
        · rename_i hn
          rcases List.mem_singleton.mp hx with rfl
          exact hn
        · simp at hx
      · simp at hx

lemma sorted_lt_of_sorted_le_nodup (l : List Int)
    (hs : List.Sorted (· ≤ ·) l) (hn : l.Nodup) : List.Sorted (· < ·) l :=
  (hs.and hn).imp fun h => lt_of_le_of_ne h.1 h.2

lemma matchAltIpv6_head_one (t : List Char) : matchAltIpv6 ('1' :: t) = false := by
  have hbr : (('1' :: t).head? = some '[') = False := by simp
  have hne : ('1' :: t).take 3 ≠ "::1".data := by
    have hdata : "::1".data = [':', ':', '1'] := rfl
    rw [hdata, List.take_succ_cons]
    intro hEq
    injection hEq with h1 _
    exact absurd h1 (by decide)
  simp [matchAltIpv6, hbr, hne]

end ParserLemmas

section TrimSplitLemmas

lemma splitComma_shape (cs : List Char) : ∃ s tl, splitComma cs = s :: tl := by
  induction cs with
  | nil => exact ⟨[], [], rfl⟩
  | cons c rest ih =>
    by_cases hc : c = ','
    · exact ⟨[], splitComma rest, by simp [splitComma, hc]⟩
    · rcases ih with ⟨s, tl, hst⟩
      exact ⟨c :: s, tl, by simp [splitComma, hc, hst]⟩

lemma splitComma_ne_nil (cs : List Char) : splitComma cs ≠ [] := by
  rcases splitComma_shape cs with ⟨s, tl, h⟩
  simp [h]

lemma not_comma_of_mem_splitComma (cs : List Char) :
    ∀ s ∈ splitComma cs, ',' ∉ s := by
  induction cs with
  | nil =>
    intro s hs
    simp [splitComma] at hs
    subst hs
    simp
  | cons c rest ih =>
    intro s hs
    by_cases hc : c = ','
    · simp [splitComma, hc] at hs
      rcases hs with rfl | hs
      · simp
      · exact ih s hs
    · rcases splitComma_shape rest with ⟨s0, tl, h0⟩
      simp [splitComma, hc, h0] at hs
      have hs0 : s0 ∈ splitComma rest := by rw [h0]; exact List.mem_cons_self s0 tl
      rcases hs with rfl | hs
      · intro hmem
        rcases List.mem_cons.mp hmem with h1 | h1
        · exact hc h1.symm
        · exact ih s0 hs0 h1
      · exact ih s (by rw [h0]; exact List.mem_cons_of_mem s0 hs)

lemma splitComma_of_not_comma (s : List Char) (h : ',' ∉ s) : splitComma s = [s] := by
  induction s with
  | nil => rfl
  | cons c t ih =>
    have hc : c ≠ ',' := fun hEq => h (hEq ▸ List.mem_cons_self c t)
    have ht : ',' ∉ t := fun hm => h (List.mem_cons_of_mem c hm)
    simp [splitComma, hc, ih ht]

lemma splitComma_append_comma (s t : List Char) (h : ',' ∉ s) :
    splitComma (s ++ ',' :: t) = s :: splitComma t := by
  induction s with
  | nil => simp [splitComma]
  | cons c u ih =>
    have hc : c ≠ ',' := fun hEq => h (hEq ▸ List.mem_cons_self c u)
    have hu : ',' ∉ u := fun hm => h (List.mem_cons_of_mem c hm)
    simp [splitComma, hc, ih hu]

lemma splitComma_joinComma (segs : List (List Char)) (hne : segs ≠ [])
    (h : ∀ s ∈ segs, ',' ∉ s) : splitComma (joinComma segs) = segs := by
  induction segs with
  | nil => exact absurd rfl hne
  | cons s rest ih =>
    cases rest with
    | nil =>
      show splitComma s = [s]
      exact splitComma_of_not_comma s (h s (List.mem_cons_self s []))
    | cons s2 rest2 =>
      have hj : joinComma (s :: s2 :: rest2) = s ++ ',' :: joinComma (s2 :: rest2) := rfl
      rw [hj, splitComma_append_comma s _ (h s (List.mem_cons_self _ _)),
        ih (by simp) fun x hx => h x (List.mem_cons_of_mem s hx)]

lemma joinComma_splitComma (cs : List Char) : joinComma (splitComma cs) = cs := by
  induction cs with
  | nil => rfl
  | cons c rest ih =>
    by_cases hc : c = ','
    · subst hc
      rcases splitComma_shape rest with ⟨s, tl, h0⟩
      rw [h0] at ih
      have h1 : splitComma (',' :: rest) = [] :: s :: tl := by simp [splitComma, h0]
      rw [h1]
      show ',' :: joinComma (s :: tl) = ',' :: rest
      rw [ih]
    · rcases splitComma_shape rest with ⟨s, tl, h0⟩
      rw [h0] at ih
      have h1 : splitComma (c :: rest) = (c :: s) :: tl := by simp [splitComma, hc, h0]
      rw [h1]
      cases tl with
      | nil =>
        show c :: s = c :: rest
        rw [show joinComma [s] = s from rfl] at ih
        rw [ih]
      | cons t2 tl2 =>
        show (c :: s) ++ ',' :: joinComma (t2 :: tl2) = c :: rest
        rw [← ih]
        rfl

lemma rstrip_cons (c : Char) (cs : List Char) :
    rstrip (c :: cs) = if rstrip cs = [] ∧ isWsChar c = true then [] else c :: rstrip cs := rfl

lemma rstrip_eq_nil_iff (cs : List Char) :
    rstrip cs = [] ↔ ∀ c ∈ cs, isWsChar c = true := by
  induction cs with
  | nil => simp [rstrip]
  | cons c t ih =>
    rw [rstrip_cons]
    by_cases h : rstrip t = [] ∧ isWsChar c = true
    · rw [if_pos h]
      constructor
      · intro _ x hx
        rcases List.mem_cons.mp hx with rfl | hx
        · exact h.2
        · exact ih.mp h.1 x hx
      · intro _
        rfl
    · rw [if_neg h]
      constructor
      · intro hcontra
        simp at hcontra
      · intro hall
        exact absurd
          ⟨ih.mpr fun x hx => hall x (List.mem_cons_of_mem c hx),
            hall c (List.mem_cons_self c t)⟩ h

lemma lstrip_cons_ws (c : Char) (t : List Char) (h : isWsChar c = true) :
    lstrip (c :: t) = lstrip t := by
  simp [lstrip, List.dropWhile_cons, h]

lemma lstrip_cons_not_ws (c : Char) (t : List Char) (h : ¬ isWsChar c = true) :
    lstrip (c :: t) = c :: t := by
  simp [lstrip, List.dropWhile_cons, h]

lemma lstrip_idem (cs : List Char) : lstrip (lstrip cs) = lstrip cs := by
  induction cs with
  | nil => rfl
  | cons c t ih =>
    by_cases h : isWsChar c = true
    · rw [lstrip_cons_ws c t h, ih]
    · rw [lstrip_cons_not_ws c t h, lstrip_cons_not_ws c t h]

lemma rstrip_idem (cs : List Char) : rstrip (rstrip cs) = rstrip cs := by
  induction cs with
  | nil => rfl
  | cons c t ih =>
    rw [rstrip_cons]
    by_cases h : rstrip t = [] ∧ isWsChar c = true
    · rw [if_pos h]
      rfl
    · rw [if_neg h, rstrip_cons, ih, if_neg h]

lemma lstrip_rstrip_comm (cs : List Char) : lstrip (rstrip cs) = rstrip (lstrip cs) := by
  induction cs with
  | nil => rfl
  | cons c t ih =>
    by_cases hw : isWsChar c = true
    · rw [lstrip_cons_ws c t hw]
      by_cases hr : rstrip t = []
      · rw [rstrip_cons, if_pos ⟨hr, hw⟩]
        have hall : ∀ x ∈ t, isWsChar x = true := (rstrip_eq_nil_iff t).mp hr
        have hlt : lstrip t = [] := List.dropWhile_eq_nil_iff.mpr hall
        rw [hlt]
        rfl
      · rw [rstrip_cons, if_neg fun hAnd => hr hAnd.1, lstrip_cons_ws c _ hw, ih]
    · rw [lstrip_cons_not_ws c t hw, rstrip_cons, if_neg fun hAnd => hw hAnd.2,
        lstrip_cons_not_ws c _ hw]

lemma jsTrim_lstrip (cs : List Char) : jsTrim (lstrip cs) = jsTrim cs := by
  show rstrip (lstrip (lstrip cs)) = rstrip (lstrip cs)
  rw [lstrip_idem]

lemma jsTrim_rstrip (cs : List Char) : jsTrim (rstrip cs) = jsTrim cs := by
  show rstrip (lstrip (rstrip cs)) = rstrip (lstrip cs)
  rw [lstrip_rstrip_comm cs, rstrip_idem]

lemma jsTrim_idem (cs : List Char) : jsTrim (jsTrim cs) = jsTrim cs :=
  (jsTrim_rstrip (lstrip cs)).trans (jsTrim_lstrip cs)

lemma jsTrim_eq_nil_iff (cs : List Char) :
    jsTrim cs = [] ↔ ∀ c ∈ cs, isWsChar c = true := by
  show rstrip (lstrip cs) = [] ↔ _
  rw [rstrip_eq_nil_iff]
  constructor
  · intro h c hc
    have hsplitwd := List.takeWhile_append_dropWhile (p := isWsChar) (l := cs)
    rcases List.mem_append.mp (by rw [hsplitwd]; exact hc) with h1 | h1
    · exact List.mem_takeWhile_imp h1
    · exact h c h1
  · intro h c hc
    exact h c ((List.dropWhile_sublist isWsChar).subset hc)

lemma splitComma_lstrip (cs : List Char) :
    splitComma (lstrip cs) = (splitComma cs).modifyHead lstrip := by
  induction cs with
  | nil => rfl
  | cons c t ih =>
    rcases splitComma_shape t with ⟨s, tl, h0⟩
    by_cases hw : isWsChar c = true
    · have hc : c ≠ ',' := fun hEq => by subst hEq; exact absurd hw (by decide)
      rw [lstrip_cons_ws c t hw, ih, h0]
      have h1 : splitComma (c :: t) = (c :: s) :: tl := by simp [splitComma, hc, h0]
      rw [h1]
      show lstrip s :: tl = lstrip (c :: s) :: tl
      rw [lstrip_cons_ws c s hw]
    · rw [lstrip_cons_not_ws c t hw]
      by_cases hc : c = ','
      · subst hc
        have h1 : splitComma (',' :: t) = [] :: splitComma t := by simp [splitComma]
        rw [h1]
        rfl
      · have h1 : splitComma (c :: t) = (c :: s) :: tl := by simp [splitComma, hc, h0]
        rw [h1]
        show (c :: s) :: tl = lstrip (c :: s) :: tl
        rw [lstrip_cons_not_ws c s hw]

lemma mapLast_cons (f : List Char → List Char) (s : List Char)
    (rest : List (List Char)) (h : rest ≠ []) :
    mapLast f (s :: rest) = s :: mapLast f rest := by
  cases rest with
  | nil => exact absurd rfl h
  | cons a l => rfl

lemma splitComma_rstrip (cs : List Char) :
    splitComma (rstrip cs) = mapLast rstrip (splitComma cs) := by
  induction cs with
  | nil => rfl
  | cons c t ih =>
    rcases splitComma_shape t with ⟨s, tl, h0⟩
    by_cases hA : rstrip t = [] ∧ isWsChar c = true
    · have hr : rstrip (c :: t) = [] := by rw [rstrip_cons, if_pos hA]
      have hc : c ≠ ',' := fun hEq => by subst hEq; exact absurd hA.2 (by decide)
      have hallws : ∀ x ∈ t, isWsChar x = true := (rstrip_eq_nil_iff t).mp hA.1
      have hnc : ',' ∉ t := fun hm => absurd (hallws ',' hm) (by decide)
      have h1 : splitComma t = [t] := splitComma_of_not_comma t hnc
      have h2 : splitComma (c :: t) = [c :: t] := by simp [splitComma, hc, h1]
      rw [hr, h2]
      show [[]] = [rstrip (c :: t)]
      rw [hr]
    · have hr : rstrip (c :: t) = c :: rstrip t := by rw [rstrip_cons, if_neg hA]
      rw [hr]
      by_cases hc : c = ','
      · subst hc
        have h1 : splitComma (',' :: rstrip t) = [] :: splitComma (rstrip t) := by
          simp [splitComma]
        have h2 : splitComma (',' :: t) = [] :: splitComma t := by simp [splitComma]
        rw [h1, h2, ih, mapLast_cons _ _ _ (splitComma_ne_nil t)]
      · rcases splitComma_shape (rstrip t) with ⟨s', tl', h0'⟩
        have h1 : splitComma (c :: rstrip t) = (c :: s') :: tl' := by
          simp [splitComma, hc, h0']
        have h2 : splitComma (c :: t) = (c :: s) :: tl := by simp [splitComma, hc, h0]
        rw [h1, h2]
        cases htl : tl with
        | nil =>
          rw [htl] at h0
          have hts : t = s := by
            have hj := joinComma_splitComma t
            rw [h0] at hj
            exact hj.symm
          have hih : splitComma (rstrip t) = [rstrip s] := by
            rw [ih, h0]
            rfl
          have heq := h0'.symm.trans hih
          injection heq with hs' htl'
          subst hs'
          subst htl'
          show [c :: rstrip s] = [rstrip (c :: s)]
          have hrs : rstrip (c :: s) = c :: rstrip s := by
            rw [rstrip_cons, if_neg fun hAnd => hA ⟨by rw [hts]; exact hAnd.1, hAnd.2⟩]
          rw [hrs]
        | cons u us =>
          rw [htl] at h0
          have hih : splitComma (rstrip t) = s :: mapLast rstrip (u :: us) := by
            rw [ih, h0, mapLast_cons _ _ _ (by simp)]
          have heq := h0'.symm.trans hih
          injection heq with hs' htl'
          rw [mapLast_cons _ _ _ (by simp), hs', htl']

lemma map_jsTrim_modifyHead (l : List (List Char)) :
    ((l.modifyHead lstrip).map jsTrim) = l.map jsTrim := by
  cases l with
  | nil => rfl
  | cons s tl => simp [List.modifyHead, jsTrim_lstrip]

lemma map_jsTrim_mapLast (l : List (List Char)) :
    ((mapLast rstrip l).map jsTrim) = l.map jsTrim := by
  induction l with
  | nil => rfl
  | cons s tl ih =>
    cases tl with
    | nil => simp [mapLast, jsTrim_rstrip]
    | cons u us =>
      rw [mapLast_cons _ _ _ (by simp)]
      simp only [List.map_cons]
      rw [show ((mapLast rstrip (u :: us)).map jsTrim) = (u :: us).map jsTrim from ih]
      simp

lemma trim_split_jsTrim (cs : List Char) :
    (splitComma (jsTrim cs)).map jsTrim = (splitComma cs).map jsTrim := by
  have h : jsTrim cs = rstrip (lstrip cs) := rfl
  rw [h, splitComma_rstrip, map_jsTrim_mapLast, splitComma_lstrip, map_jsTrim_modifyHead]

lemma collect_sorted_eq_of_perm (segs1 segs2 : List (List Char)) (hp : segs1.Perm segs2) :
    List.insertionSort (· ≤ ·) (collectPages segs1) =
      List.insertionSort (· ≤ ·) (collectPages segs2) := by
  have hmem : ∀ x : Int, x ∈ collectPages segs1 ↔ x ∈ collectPages segs2 := by
    intro x
    rw [mem_collectPages, mem_collectPages]
    constructor
    · rintro ⟨s, hs, hxs⟩
      exact ⟨s, hp.subset hs, hxs⟩
    · rintro ⟨s, hs, hxs⟩
      exact ⟨s, hp.symm.subset hs, hxs⟩
  have hcp : (collectPages segs1).Perm (collectPages segs2) :=
    (List.perm_ext_iff_of_nodup (nodup_collectPages _) (nodup_collectPages _)).mpr hmem
  exact List.eq_of_perm_of_sorted
    ((List.perm_insertionSort _ _).trans (hcp.trans (List.perm_insertionSort _ _).symm))
    (List.sorted_insertionSort _ _) (List.sorted_insertionSort _ _)

lemma comma_mem_joinComma (s1 s2 : List Char) (rest : List (List Char)) :
    ',' ∈ joinComma (s1 :: s2 :: rest) := by
  show ',' ∈ s1 ++ ',' :: joinComma (s2 :: rest)
  exact List.mem_append.mpr (Or.inr (List.mem_cons_self _ _))

end TrimSplitLemmas

/-- C1 (counterexample): at the spec's own example input
`[{pageNumber: 5, textBlocks: [null, {type:"title", text:"Hi"}]}]` the
normalizer produces markdown `""`, not the synthesized heading `"# Hi"`
the claim asserts: `prepareDisplayPages` never synthesizes markdown from
blocks. -/
theorem claim1_counterexample :
    (prepareDisplayPages (some [pageTitleHi])).map DisplayPage.markdown = [""] ∧
      ("" : String) ≠ "# Hi" := by
  constructor
  · rfl
  · decide

/-- C1 (amended): for every page whose engine-supplied markdown is absent
or empty after trimming, even when the sanitized block list is non-empty,
the normalizer leaves the page's markdown empty — it does not synthesize
markdown from the blocks — and carries the sanitized blocks through
unchanged. -/
theorem claim1_no_markdown_synthesis :
    ∀ (ps : List OcrPage) (k : Nat) (page : OcrPage),
      ps[k]? = some page →
      resolvedMarkdown page = "" →
      sanitizeBlocks page.textBlocks ≠ [] →
      ((prepareDisplayPages (some ps))[k]?.map DisplayPage.markdown) = some "" ∧
        ((prepareDisplayPages (some ps))[k]?.map DisplayPage.blocks) =
          some (sanitizeBlocks page.textBlocks) := by
  intro ps k page hk hmd _hblocks
  have h := prepareAux_getElem? ps 0 k
  rw [hk] at h
  simp at h
  unfold prepareDisplayPages
  rw [h]
  simp [makeDisplayPage, hmd]

/-- Witness for C1's amended theorem at the spec's example input. -/
theorem claim1_witness :
    (prepareDisplayPages (some [pageTitleHi]))[0]?.map DisplayPage.markdown = some "" :=
  (claim1_no_markdown_synthesis [pageTitleHi] 0 pageTitleHi rfl (by decide) (by decide)).1

/-- C2 (counterexample): the engine page `{pageNumber: 0}` carries a finite
number, so the normalizer returns it verbatim and the produced DisplayPage
has pageNumber 0, which is not at least 1. -/
theorem claim2_counterexample :
    (prepareDisplayPages (some [pageZero])).map DisplayPage.pageNumber = [0] ∧
      ¬ (1 : ℚ) ≤ 0 := by
  constructor
  · rfl
  · norm_num

/-- C2 (amended): whenever every engine-supplied finite `pageNumber` is an
integer at least 1 and every engine-supplied finite `index` is an integer at
least 0, each DisplayPage produced by the normalizer has an integral
pageNumber at least 1 (blocks and markdown are total by construction). -/
theorem claim2_pageNumber_invariant :
    ∀ ps : List OcrPage, (∀ p ∈ ps, PageNumericFieldsOk p) →
      ∀ dp ∈ prepareDisplayPages (some ps), 1 ≤ dp.pageNumber ∧ dp.pageNumber.den = 1 := by
  intro ps hps dp hdp
  unfold prepareDisplayPages at hdp
  rcases mem_prepareAux dp ps 0 hdp with ⟨k, p, hk, hdpe⟩
  have hp : p ∈ ps := by
    rcases List.getElem?_eq_some.mp hk with ⟨hlt, hEq⟩
    exact hEq ▸ List.getElem_mem hlt
  rw [hdpe]
  simpa [makeDisplayPage] using normalizePageNumber_int_ge_one p (0 + k) (hps p hp)

/-- Witness for C2's amended theorem at the spec's summary-page example. -/
theorem claim2_witness :
    1 ≤ (DisplayPage.mk 1 [] "Summary paragraph.").pageNumber ∧
      (DisplayPage.mk 1 [] "Summary paragraph.").pageNumber.den = 1 :=
  claim2_pageNumber_invariant [pageSummary]
    (by
      intro p hp
      rw [List.mem_singleton] at hp
      subst hp
      refine ⟨?_, ?_⟩
      · intro q hq
        simp [pageSummary] at hq
      · intro q hq
        simp [pageSummary] at hq
        rw [← hq]
        exact ⟨le_refl 0, rfl⟩)
    (DisplayPage.mk 1 [] "Summary paragraph.")
    (by rw [prepare_pageSummary_eval]; exact List.mem_singleton_self _)

/-- C8 (confirmed): the display page number is resolved by priority — the
engine's finite `pageNumber` verbatim, else the engine's finite `index` plus
one, else the 0-based array position plus one; and on the spec's example
`[{index: 0, markdown: "Summary paragraph."}]` the normalizer yields one
page with pageNumber 1, no blocks, and the engine markdown. -/
theorem claim8_page_number_priority :
    (∀ (ps : List OcrPage) (k : Nat) (page : OcrPage),
        ps[k]? = some page →
        ((∀ q : ℚ, page.pageNumber = some (JsNum.val q) →
            (prepareDisplayPages (some ps))[k]?.map DisplayPage.pageNumber = some q) ∧
          (isFiniteNum page.pageNumber = false →
            ∀ q : ℚ, page.index = some (JsNum.val q) →
              (prepareDisplayPages (some ps))[k]?.map DisplayPage.pageNumber = some (q + 1)) ∧
          (isFiniteNum page.pageNumber = false → isFiniteNum page.index = false →
            (prepareDisplayPages (some ps))[k]?.map DisplayPage.pageNumber =
              some ((k : ℚ) + 1)))) ∧
      prepareDisplayPages (some [pageSummary]) = [⟨1, [], "Summary paragraph."⟩] := by
  constructor
  · intro ps k page hk
    have h := prepareAux_getElem? ps 0 k
    rw [hk] at h
    simp at h
    refine ⟨?_, ?_, ?_⟩
    · intro q hq
      unfold prepareDisplayPages
      rw [h]
      simp [makeDisplayPage, normalizePageNumber_pn page k q hq]
    · intro h1 q hq
      unfold prepareDisplayPages
      rw [h]
      simp [makeDisplayPage, normalizePageNumber_idx page k q h1 hq]
    · intro h1 h2
      unfold prepareDisplayPages
      rw [h]
      simp [makeDisplayPage, normalizePageNumber_pos page k h1 h2]
  · exact prepare_pageSummary_eval

/-- Witness for C8 at the spec's summary-page example. -/
theorem claim8_witness :
    (prepareDisplayPages (some [pageSummary]))[0]?.map DisplayPage.pageNumber =
      some ((0 : ℚ) + 1) :=
  (claim8_page_number_priority.1 [pageSummary] 0 pageSummary rfl).2.1 (by decide) 0 (by decide)

/-- C3 (confirmed): whenever `parsePageSelection` returns a value at all, it
is a non-empty strictly ascending list of positive integers — it never
contains 0, a negative number, or a duplicate. -/
theorem claim3_parse_result_invariant :
    ∀ (value : String) (l : List Int),
      parsePageSelection value = some l →
      l ≠ [] ∧ List.Sorted (· < ·) l ∧ ∀ x ∈ l, 0 < x := by
  intro value l h
  unfold parsePageSelection at h
  by_cases htr : jsTrim value.data = []
  · simp [htr] at h
  · rw [if_neg htr] at h
    dsimp only at h
    by_cases hp : collectPages ((splitComma (jsTrim value.data)).map jsTrim) = []
    · simp [hp] at h
    · rw [if_neg hp] at h
      have hso := List.sorted_insertionSort (· ≤ ·)
        (collectPages ((splitComma (jsTrim value.data)).map jsTrim))
      have hperm := List.perm_insertionSort (· ≤ ·)
        (collectPages ((splitComma (jsTrim value.data)).map jsTrim))
      have hnd : (List.insertionSort (· ≤ ·)
          (collectPages ((splitComma (jsTrim value.data)).map jsTrim))).Nodup :=
        hperm.nodup_iff.mpr (nodup_collectPages _)
      rcases Option.some.inj h with rfl
      refine ⟨?_, sorted_lt_of_sorted_le_nodup _ hso hnd, ?_⟩
      · intro hnil
        have hlen := hperm.length_eq
        rw [hnil] at hlen
        exact hp (List.eq_nil_of_length_eq_zero hlen.symm)
      · intro x hx
        have hx2 := hperm.mem_iff.mp hx
        rcases (mem_collectPages x _).mp hx2 with ⟨s, _, hxs⟩
        exact segPages_pos s x hxs

/-- Witness for C3 at the spec's combined range example. -/
theorem claim3_witness :
    ([1, 3, 4, 5, 8] : List Int) ≠ [] ∧
      List.Sorted (· < ·) ([1, 3, 4, 5, 8] : List Int) ∧
      ∀ x ∈ ([1, 3, 4, 5, 8] : List Int), 0 < x :=
  claim3_parse_result_invariant "1, 3-5, 8" [1, 3, 4, 5, 8] (by decide)

/-- C4 (confirmed): a range segment whose parsed start is 0 or whose start
exceeds its end contributes no pages at all, and in particular
`parse("0-2")` is absent while `parse("0-2, 3")` is `[3]`. -/
theorem claim4_zero_or_inverted_range_discarded :
    (∀ ds1 ds2 : List Char,
        ds1 ≠ [] → ds2 ≠ [] → ds1.all isDigitChar = true → ds2.all isDigitChar = true →
        (digitsToNat ds1 = 0 ∨ digitsToNat ds2 < digitsToNat ds1) →
        segPages (ds1 ++ '-' :: ds2) = []) ∧
      parsePageSelection "0-2" = none ∧ parsePageSelection "0-2, 3" = some [3] := by
  refine ⟨?_, by decide, by decide⟩
  intro ds1 ds2 h1 h2 hd1 hd2 hcond
  have hne : ds1 ++ '-' :: ds2 ≠ [] := by simp
  have htw : (ds1 ++ '-' :: ds2).takeWhile isDigitChar = ds1 :=
    takeWhile_digits_append ds1 ds2 hd1
  have hdr : (ds1 ++ '-' :: ds2).drop ds1.length = '-' :: ds2 := List.drop_left ds1 _
  unfold segPages
  rw [if_neg hne]
  rw [htw, hdr]
  rw [if_pos ⟨h1, rfl, by simpa using h2, by simpa using hd2⟩]
  rw [if_pos (by simpa using hcond)]

/-- Witness for C4's general range-discarding statement at the range 0-2. -/
theorem claim4_witness : segPages ['0', '-', '2'] = [] :=
  claim4_zero_or_inverted_range_discarded.1 ['0'] ['2'] (by decide) (by decide) (by decide)
    (by decide) (Or.inl (by decide))

/-- C5 (confirmed): with a non-loopback hosting hostname, whenever the URL
resolved from the path against the trimmed base has a loopback hostname,
the resolver discards the resolution and returns the path unchanged; in
particular a localhost base is blocked from a non-loopback page. -/
theorem claim5_loopback_resolution_blocked :
    (∀ (base ctx path : String) (u : JsURL),
        isLoopbackHost ctx = false →
        tryNewURL path (jsStrTrim base) = some u →
        isLoopbackHost u.hostname = true →
        createApiUrlResolver (some base) (some ctx) path = path) ∧
      createApiUrlResolver (some "http://localhost:3000") (some "mistral-ocr.vercel.app")
        "/api/ocr" = "/api/ocr" := by
  refine ⟨?_, by decide⟩
  intro base ctx path u hctx hurl hloop
  unfold createApiUrlResolver
  simp only [Option.map_some']
  by_cases hb : jsStrTrim base = ""
  · simp [hb]
  · simp [hb, hurl, hctx, hloop]

/-- Witness for C5 at the localhost-base example from the test suite. -/
theorem claim5_witness :
    createApiUrlResolver (some "http://localhost:3000") (some "mistral-ocr.vercel.app")
      "/api/ocr" = "/api/ocr" :=
  claim5_loopback_resolution_blocked.1 "http://localhost:3000" "mistral-ocr.vercel.app"
    "/api/ocr" ⟨"http", "localhost", "3000", "/api/ocr"⟩ (by decide) (by decide) (by decide)

/-- C6 (counterexample): the hostname `127.localhost` starts with the digits
127 and is not a textual IPv4 loopback of the form `127.x.x.x` (the
classifier's own 127-alternative rejects it), yet the classifier reports it
as loopback, through the `*.localhost` alternative — so the claim's
universal statement fails on it. -/
theorem claim6_counterexample :
    "127.localhost".data.take 3 = "127".data ∧
      matchAlt127 ("127.localhost".data.map foldCase) = false ∧
      isLoopbackHost "127.localhost" = true := by
  refine ⟨by decide, by decide, by decide⟩

/-- C6 (amended): every hostname that starts with the digits 127, does not
match the classifier's `127.<1-3 digits>.<1-3 digits>.<1-3 digits>` loopback
pattern, and does not match its `*.localhost` pattern either, is reported
not loopback; in particular `127.not-a-loopback.com` is not loopback and the
resolver does not block resolution to it. -/
theorem claim6_prefix127_not_loopback :
    (∀ h : String,
        h.data.take 3 = "127".data →
        matchAltLocalhost (h.data.map foldCase) = false →
        matchAlt127 (h.data.map foldCase) = false →
        isLoopbackHost h = false) ∧
      isLoopbackHost "127.not-a-loopback.com" = false ∧
      createApiUrlResolver (some "http://127.not-a-loopback.com")
        (some "mistral-ocr.vercel.app") "/api/ocr" =
        "http://127.not-a-loopback.com/api/ocr" := by
  refine ⟨?_, by decide, by decide⟩
  intro h h127 h1 h2
  have ht : h.data = '1' :: '2' :: '7' :: h.data.drop 3 := by
    conv_lhs => rw [← List.take_append_drop 3 h.data]
    rw [h127]
    rfl
  unfold isLoopbackHost
  dsimp only
  rw [h1, h2]
  simp only [Bool.false_or]
  rw [ht]
  simp only [List.map_cons]
  rw [show foldCase '1' = '1' from rfl]
  exact matchAltIpv6_head_one _

/-- Witness for C6's amended theorem at `127.not-a-loopback.com`. -/
theorem claim6_witness : isLoopbackHost "127.not-a-loopback.com" = false :=
  claim6_prefix127_not_loopback.1 "127.not-a-loopback.com" (by decide) (by decide) (by decide)

/-- C7 (counterexample): the normalizer does throw on a value — the array
`[null]` is an array, so it reaches the map callback, which reads
`page.textBlocks` of the null entry and raises a `TypeError` (modelled as
`none`); the call does not return normally with the empty page list the
claim promises. -/
theorem claim7_counterexample :
    prepareDisplayPagesJs (some [none]) = none ∧
      (none : Option (List DisplayPage)) ≠ some [] := by
  exact ⟨rfl, by simp⟩

/-- C7 (amended): `parsePageSelection` and the resolver never throw — a
selection with no valid segment degrades to no restriction and a failing
URL construction leaves the path unchanged — and the normalizer returns
normally on a non-array input (empty page list) and on every array of page
records, where it agrees with `prepareDisplayPages`; an array containing a
`null`/`undefined` entry, however, makes it throw (see the
counterexample). -/
theorem claim7_total_conservative_defaults :
    (∀ value : String,
        (∀ seg ∈ (splitComma (jsTrim value.data)).map jsTrim, segPages seg = []) →
        parsePageSelection value = none) ∧
      prepareDisplayPagesJs none = some [] ∧
      (∀ ps : List OcrPage,
        prepareDisplayPagesJs (some (ps.map some)) = some (prepareDisplayPages (some ps))) ∧
      (∀ base ctx path : String,
        tryNewURL path (jsStrTrim base) = none →
        createApiUrlResolver (some base) (some ctx) path = path) := by
  refine ⟨?_, rfl, ?_, ?_⟩
  · intro value hsegs
    unfold parsePageSelection
    by_cases htr : jsTrim value.data = []
    · simp [htr]
    · rw [if_neg htr]
      dsimp only
      rw [collectPages_eq_nil _ hsegs]
      rfl
  · intro ps
    exact prepareAuxJs_map_some ps 0
  · intro base ctx path hurl
    unfold createApiUrlResolver
    simp only [Option.map_some']
    by_cases hb : jsStrTrim base = ""
    · simp [hb]
    · simp [hb, hurl]

/-- Witness for C7's amended theorem at a junk selection, a singleton page
record array, and an unparsable base URL. -/
theorem claim7_witness :
    parsePageSelection "abc, def-ghi" = none ∧
      prepareDisplayPagesJs (some [some pageSummary]) =
        some (prepareDisplayPages (some [pageSummary])) ∧
      createApiUrlResolver (some "not a url") (some "mistral-ocr.vercel.app") "/x" = "/x" :=
  ⟨claim7_total_conservative_defaults.1 "abc, def-ghi" (by decide),
    claim7_total_conservative_defaults.2.2.1 [pageSummary],
    claim7_total_conservative_defaults.2.2.2 "not a url" "mistral-ocr.vercel.app" "/x"
      (by decide)⟩

/-- C9 (confirmed): a POST request whose decoded file exceeds the configured
maximum (default 4718592 bytes, about 4.5 MiB) is answered with a non-2xx
response — 413 PAYLOAD_TOO_LARGE, or 500 when the API key is missing — and
the file is never forwarded to the OCR collaborator. -/
theorem claim9_oversize_rejected_before_upload :
    (∀ (env : HandlerEnv) (b : RawOcrBody) (parsed : ParsedOcrRequest),
        ocrRequestSchemaParse b = some parsed →
        getMaxUploadBytes env < base64DecodedLen parsed.fileBase64 →
        (handlerDecision env "POST" (some b) = .response 500 "INTERNAL_SERVER_ERROR" ∨
            handlerDecision env "POST" (some b) = .response 413 "PAYLOAD_TOO_LARGE") ∧
          ∀ (fn : String) (len : Nat) (pg : Option (List Int)),
            handlerDecision env "POST" (some b) ≠ .upload fn len pg) ∧
      getMaxUploadBytes {} = 4718592 := by
  refine ⟨?_, rfl⟩
  intro env b parsed hparse hsize
  cases hak : env.apiKey with
  | none =>
    constructor
    · exact Or.inl (by simp [handlerDecision, hparse, hak])
    · intro fn len pg
      simp [handlerDecision, hparse, hak]
  | some k =>
    constructor
    · exact Or.inr (by simp [handlerDecision, hparse, hak, hsize])
    · intro fn len pg
      simp [handlerDecision, hparse, hak, hsize]

/-- Witness for C9 with a 3-byte cap and a 4-byte upload. -/
theorem claim9_witness :
    handlerDecision envSmallCap "POST" (some bodySmallFile) =
        .response 500 "INTERNAL_SERVER_ERROR" ∨
      handlerDecision envSmallCap "POST" (some bodySmallFile) =
        .response 413 "PAYLOAD_TOO_LARGE" :=
  (claim9_oversize_rejected_before_upload.1 envSmallCap bodySmallFile parsedSmallFile
    (by decide) (by decide)).1

/-- C10 (confirmed): `parsePageSelection` is invariant under permutation of
the comma-separated segments of its input — joining any permutation of the
segments with commas and parsing yields exactly the same result as parsing
the original input. -/
theorem claim10_segment_permutation_invariant :
    ∀ (value : String) (segs : List (List Char)),
      segs.Perm (splitComma (jsTrim value.data)) →
      parsePageSelection ⟨joinComma segs⟩ = parsePageSelection value := by
  intro value segs hperm
  have hOne : splitComma (jsTrim value.data) ≠ [] := splitComma_ne_nil _
  have hsegsne : segs ≠ [] := by
    intro h
    rw [h] at hperm
    exact hOne hperm.nil_eq.symm
  have hnc : ∀ s ∈ segs, ',' ∉ s := fun s hs =>
    not_comma_of_mem_splitComma _ s (hperm.subset hs)
  by_cases hLT : jsTrim (joinComma segs) = []
  · have hallws : ∀ c ∈ joinComma segs, isWsChar c = true := (jsTrim_eq_nil_iff _).mp hLT
    obtain ⟨s, rfl⟩ : ∃ s, segs = [s] := by
      cases segs with
      | nil => exact absurd rfl hsegsne
      | cons s1 rest =>
        cases rest with
        | nil => exact ⟨s1, rfl⟩
        | cons s2 rest2 =>
          exact absurd (hallws ',' (comma_mem_joinComma s1 s2 rest2)) (by decide)
    have hO : splitComma (jsTrim value.data) = [s] := List.perm_singleton.mp hperm.symm
    have hT : jsTrim value.data = s := by
      have hj := joinComma_splitComma (jsTrim value.data)
      rw [hO] at hj
      exact hj.symm
    have hTnil : jsTrim value.data = [] := by
      have h1 : jsTrim (jsTrim value.data) = jsTrim value.data := jsTrim_idem _
      rw [hT] at h1
      have h2 : jsTrim s = [] := (jsTrim_eq_nil_iff s).mpr fun c hc => hallws c hc
      rw [hT, ← h1, h2]
    unfold parsePageSelection
    rw [if_pos hLT, if_pos hTnil]
  · have hTne : jsTrim value.data ≠ [] := by
      intro hT
      rw [hT] at hperm
      have hsegs : segs = [[]] := List.perm_singleton.mp hperm
      rw [hsegs] at hLT
      exact hLT rfl
    have hsplit : splitComma (joinComma segs) = segs := splitComma_joinComma segs hsegsne hnc
    have hmapperm : ((splitComma (jsTrim (joinComma segs))).map jsTrim).Perm
        ((splitComma (jsTrim value.data)).map jsTrim) := by
      rw [trim_split_jsTrim (joinComma segs), hsplit]
      exact hperm.map jsTrim
    have hmem : ∀ x : Int,
        x ∈ collectPages ((splitComma (jsTrim (joinComma segs))).map jsTrim) ↔
          x ∈ collectPages ((splitComma (jsTrim value.data)).map jsTrim) := by
      intro x
      rw [mem_collectPages, mem_collectPages]
      constructor
      · rintro ⟨s, hs, hxs⟩
        exact ⟨s, hmapperm.subset hs, hxs⟩
      · rintro ⟨s, hs, hxs⟩
        exact ⟨s, hmapperm.symm.subset hs, hxs⟩
    have hnil : collectPages ((splitComma (jsTrim (joinComma segs))).map jsTrim) = [] ↔
        collectPages ((splitComma (jsTrim value.data)).map jsTrim) = [] := by
      rw [List.eq_nil_iff_forall_not_mem, List.eq_nil_iff_forall_not_mem]
      constructor
      · intro h x hx
        exact h x ((hmem x).mpr hx)
      · intro h x hx
        exact h x ((hmem x).mp hx)
    have hsorteq := collect_sorted_eq_of_perm _ _ hmapperm
    unfold parsePageSelection
    rw [if_neg hLT, if_neg hTne]
    dsimp only
    by_cases hc1 : collectPages ((splitComma (jsTrim (joinComma segs))).map jsTrim) = []
    · rw [if_pos hc1, if_pos (hnil.mp hc1)]
    · rw [if_neg hc1, if_neg fun h => hc1 (hnil.mpr h), hsorteq]

/-- Witness for C10: permuting the segments of 3-4, 1 yields the same
parse. -/
theorem claim10_witness :
    parsePageSelection ⟨joinComma [" 1".data, "3-4".data]⟩ = parsePageSelection "3-4, 1" :=
  claim10_segment_permutation_invariant "3-4, 1" [" 1".data, "3-4".data]
    (by
      rw [show splitComma (jsTrim ("3-4, 1" : String).data) = ["3-4".data, " 1".data] from rfl]
      exact List.Perm.swap _ _ _)

end MistralOcr
